import Mathlib

/-!
Verification development for the credential-correlation detection engine
(`pw_analy_7_xjy.py`).  Python strings are modelled as `List Char`
(ASCII-faithful: `str.lower` is modelled by `Char.toLower`, which lowercases
exactly the ASCII range).  Floating-point percentages are modelled by `ℚ`.
The file-writing / plotting parts of `analyze_relations` are I/O and are not
modelled; the pure summary data it returns is.
-/

/-- `[a-z0-9]` test used by `normalize_alnum` (the regex `[^a-z0-9]` deletes
the complement). -/
def isLowerAlnum (c : Char) : Bool :=
  (97 ≤ c.toNat && c.toNat ≤ 122) || (48 ≤ c.toNat && c.toNat ≤ 57)

/-- `[A-Za-z0-9]` test used by `tokenize_name` (the regex `[^A-Za-z0-9]+`
is the split delimiter). -/
def isAlnumAscii (c : Char) : Bool :=
  (65 ≤ c.toNat && c.toNat ≤ 90) || (97 ≤ c.toNat && c.toNat ≤ 122) ||
    (48 ≤ c.toNat && c.toNat ≤ 57)

/-- `normalize_alnum(s)`: lowercase, then drop every character outside
`[a-z0-9]` (`re.sub(r'[^a-z0-9]', '', s.lower())`). The Python `None` guard
returns `""`; absent strings are modelled as `[]`. -/
def normalize_alnum (s : List Char) : List Char :=
  (s.map Char.toLower).filter isLowerAlnum

/-- Python `str.strip()` (drop leading and trailing whitespace), used at the
start of `tokenize_name`. -/
def pyStrip (s : List Char) : List Char :=
  ((s.dropWhile Char.isWhitespace).reverse.dropWhile Char.isWhitespace).reverse

/-- `re.split(r'[^A-Za-z0-9]+', s)`: the pieces of `s` between maximal runs
of non-alphanumeric characters, keeping the empty piece that `re.split`
produces before a leading delimiter run and after a trailing one. -/
def splitNonAlnum : List Char → List (List Char)
  | [] => [[]]
  | c :: rest =>
    if isAlnumAscii c then
      match splitNonAlnum rest with
      | [] => [[c]]
      | g :: gs => (c :: g) :: gs
    else
      match rest with
      | [] => [[], []]
      | d :: _ =>
        if isAlnumAscii d then [] :: splitNonAlnum rest else splitNonAlnum rest

/-- `tokenize_name(s)`: empty input gives no tokens; otherwise strip, split
on runs of non-alphanumerics, keep pieces of length ≥ 3, lowercase them. -/
def tokenize_name (s : List Char) : List (List Char) :=
  if s.isEmpty then []
  else
    ((splitNonAlnum (pyStrip s)).filter (fun p => 3 ≤ p.length)).map
      (fun p => p.map Char.toLower)

/-- The `LEET_MAP` dict as a finite partial map on characters. -/
def LEET_MAP (c : Char) : Option Char :=
  if c = '4' then some 'a'
  else if c = '@' then some 'a'
  else if c = '0' then some 'o'
  else if c = '1' then some 'l'
  else if c = '!' then some 'i'
  else if c = '3' then some 'e'
  else if c = '$' then some 's'
  else if c = '5' then some 's'
  else if c = '7' then some 't'
  else if c = '+' then some 't'
  else if c = '2' then some 'z'
  else if c = '9' then some 'g'
  else if c = '6' then some 'g'
  else none

/-- One character step of `deleet`: substitute via `LEET_MAP` when the
character is a key, else pass it through. -/
def leetStep (c : Char) : Char :=
  match LEET_MAP c with
  | some r => r
  | none => c

/-- `deleet(s)`: substitute every `LEET_MAP` key, then `.lower()` the result
(`''.join(out).lower()`); the `if not s` guard returns `""` and is subsumed
by mapping over the empty list. -/
def deleet (s : List Char) : List Char :=
  (s.map leetStep).map Char.toLower

/-- A parsed credential record (`{'username':…,'email':…,'password':…,'src':…}`);
absent fields are the empty string. -/
structure Record where
  username : List Char
  email : List Char
  password : List Char
  src : List Char

/-- The dict returned by `detect_relations`: the boolean flags plus the two
matched-token lists. -/
structure RelationFlags where
  exact_username : Bool
  exact_email : Bool
  contains_username : Bool
  startswith_username : Bool
  endswith_username : Bool
  contains_localpart : Bool
  contains_token : Bool
  matched_tokens : List (List Char)
  reversed_username : Bool
  deleet_contains_username : Bool
  deleet_contains_token : Bool
  matched_deleet_tokens : List (List Char)

/-- The email local-part used by `detect_relations`:
`local = email.split('@')[0] if '@' in email else ""`. -/
def local_part (email : List Char) : List Char :=
  if email.contains '@' then email.takeWhile (fun c => c != '@') else []

/-- `detect_relations(record)`.  Python's substring / startswith / endswith
tests become decidable `List.IsInfix` / `IsPrefix` / `IsSuffix`; the
token loops that set `contains_token` / `deleet_contains_token` and append
matched tokens are modelled by `List.filter` (same truth value and same
matched list, in order). -/
def detect_relations (record : Record) : RelationFlags :=
  let uname := record.username
  let email := record.email
  let pwd := record.password
  let u_norm := normalize_alnum uname
  let e_norm := normalize_alnum email
  let p_norm := normalize_alnum pwd
  let lpart := local_part email
  let local_norm := normalize_alnum lpart
  let tokens := tokenize_name uname ++ tokenize_name lpart
  let matched_tokens := tokens.filter (fun t => !t.isEmpty && decide (t <:+: p_norm))
  let rev_un := if !u_norm.isEmpty then u_norm.reverse else []
  let p_deleet := normalize_alnum (deleet pwd)
  let matched_deleet_tokens := tokens.filter (fun t => !t.isEmpty && decide (t <:+: p_deleet))
  { exact_username := !u_norm.isEmpty && p_norm == u_norm
    exact_email := !e_norm.isEmpty && p_norm == e_norm
    contains_username := !u_norm.isEmpty && decide (u_norm <:+: p_norm)
    startswith_username := !u_norm.isEmpty && decide (u_norm <+: p_norm)
    endswith_username := !u_norm.isEmpty && decide (u_norm <:+ p_norm)
    contains_localpart := !local_norm.isEmpty && decide (local_norm <:+: p_norm)
    contains_token := !(tokens.filter (fun t => !t.isEmpty && decide (t <:+: p_norm))).isEmpty
    matched_tokens := matched_tokens
    reversed_username := !rev_un.isEmpty && decide (rev_un <:+: p_norm)
    deleet_contains_username := !u_norm.isEmpty && decide (u_norm <:+: p_deleet)
    deleet_contains_token := !(tokens.filter (fun t => !t.isEmpty && decide (t <:+: p_deleet))).isEmpty
    matched_deleet_tokens := matched_deleet_tokens }

/-- The fixed priority order of `analyze_relations`. -/
def priority_keys : List String :=
  ["exact_username", "exact_email", "contains_username", "contains_localpart",
   "contains_token", "deleet_contains_username", "deleet_contains_token",
   "reversed_username"]

/-- `flags.get(k)` for the boolean entries of the flags dict (a key that is
not a boolean flag reads as false). -/
def flags_get (f : RelationFlags) (k : String) : Bool :=
  if k = "exact_username" then f.exact_username
  else if k = "exact_email" then f.exact_email
  else if k = "contains_username" then f.contains_username
  else if k = "startswith_username" then f.startswith_username
  else if k = "endswith_username" then f.endswith_username
  else if k = "contains_localpart" then f.contains_localpart
  else if k = "contains_token" then f.contains_token
  else if k = "reversed_username" then f.reversed_username
  else if k = "deleet_contains_username" then f.deleet_contains_username
  else if k = "deleet_contains_token" then f.deleet_contains_token
  else false

/-- The primary-relation selection loop of `analyze_relations`
(`for k in priority_keys: if flags.get(k): primary = k; break`). -/
def primaryOf (f : RelationFlags) : Option String :=
  priority_keys.find? (fun k => flags_get f k)

/-- One `Counter` increment (`counts[k] += 1`), the counter read as a total
function with default 0. -/
def bump (counts : String → Nat) (k : String) : String → Nat :=
  fun x => if x = k then counts x + 1 else counts x

/-- The per-record counter updates of the `analyze_relations` loop: the
primary label's count when one is found, then `related` / `no_relation`. -/
def countStep (counts : String → Nat) (rec : Record) : String → Nat :=
  match primaryOf (detect_relations rec) with
  | some k => bump (bump counts k) "related"
  | none => bump counts "no_relation"

/-- The summary dict returned by `analyze_relations` (pure data only). -/
structure Summary where
  total : Nat
  related : Nat
  no_relation : Nat
  related_pct : ℚ
  no_relation_pct : ℚ
  detail : List (String × Nat)

/-- `analyze_relations(records)`: classify each record, tally counts,
compute percentages (`related / total * 100 if total else 0`), and the
per-label detail.  Report/CSV/chart writing is I/O and not modelled. -/
def analyze_relations (records : List Record) : Summary :=
  let total := records.length
  let counts := records.foldl countStep (fun _ => 0)
  let related := counts "related"
  let no_relation := counts "no_relation"
  { total := total
    related := related
    no_relation := no_relation
    related_pct := if total = 0 then 0 else (related : ℚ) / (total : ℚ) * 100
    no_relation_pct := if total = 0 then 0 else (no_relation : ℚ) / (total : ℚ) * 100
    detail := priority_keys.map (fun k => (k, counts k)) }

/-! ## Helper lemmas -/

theorem char_toNat_ofNat (n : Nat) (h : n < 55296) : (Char.ofNat n).toNat = n := by
  rw [Char.ofNat, dif_pos (Or.inl h)]
  rfl

theorem toLower_eq_self (c : Char) (h : ¬(65 ≤ c.toNat ∧ c.toNat ≤ 90)) :
    Char.toLower c = c := by
  simp only [Char.toLower]
  rw [if_neg (by omega)]

theorem toLower_of_upper (c : Char) (h : 65 ≤ c.toNat ∧ c.toNat ≤ 90) :
    Char.toLower c = Char.ofNat (c.toNat + 32) := by
  simp only [Char.toLower]
  rw [if_pos (by omega)]

theorem toLower_eq_self_of_isLowerAlnum (c : Char) (h : isLowerAlnum c = true) :
    Char.toLower c = c := by
  simp only [isLowerAlnum, Bool.or_eq_true, Bool.and_eq_true, decide_eq_true_eq] at h
  exact toLower_eq_self c (by omega)

theorem map_id_on {α : Type} {l : List α} {f : α → α} (h : ∀ a ∈ l, f a = a) :
    l.map f = l := by
  induction l with
  | nil => rfl
  | cons a t ih =>
    simp only [List.map_cons, h a (List.mem_cons_self a t),
      ih (fun b hb => h b (List.mem_cons_of_mem a hb))]

/-- A character that differs from every `LEET_MAP` key is fixed by `leetStep`. -/
theorem leetStep_eq_self_of_ne (c : Char) (h1 : c ≠ '4') (h2 : c ≠ '@') (h3 : c ≠ '0')
    (h4 : c ≠ '1') (h5 : c ≠ '!') (h6 : c ≠ '3') (h7 : c ≠ '$') (h8 : c ≠ '5')
    (h9 : c ≠ '7') (h10 : c ≠ '+') (h11 : c ≠ '2') (h12 : c ≠ '9') (h13 : c ≠ '6') :
    leetStep c = c := by
  unfold leetStep LEET_MAP
  rw [if_neg h1, if_neg h2, if_neg h3, if_neg h4, if_neg h5, if_neg h6, if_neg h7,
    if_neg h8, if_neg h9, if_neg h10, if_neg h11, if_neg h12, if_neg h13]

/-- `leetStep` fixes every character with a codepoint ≥ 97 (all `LEET_MAP`
keys are below 97). -/
theorem leetStep_eq_self_of_ge (c : Char) (h : 97 ≤ c.toNat) : leetStep c = c := by
  apply leetStep_eq_self_of_ne <;> exact fun e => absurd (e ▸ h) (by decide)

/-- `leetStep` either fixes its argument or produces one of the nine
substitution letters, all of which lie in `[a-z]`. -/
theorem leetStep_cases (c : Char) :
    leetStep c = c ∨ (97 ≤ (leetStep c).toNat ∧ (leetStep c).toNat ≤ 122) := by
  by_cases h1 : c = '4'
  · subst h1; right; decide
  by_cases h2 : c = '@'
  · subst h2; right; decide
  by_cases h3 : c = '0'
  · subst h3; right; decide
  by_cases h4 : c = '1'
  · subst h4; right; decide
  by_cases h5 : c = '!'
  · subst h5; right; decide
  by_cases h6 : c = '3'
  · subst h6; right; decide
  by_cases h7 : c = '$'
  · subst h7; right; decide
  by_cases h8 : c = '5'
  · subst h8; right; decide
  by_cases h9 : c = '7'
  · subst h9; right; decide
  by_cases h10 : c = '+'
  · subst h10; right; decide
  by_cases h11 : c = '2'
  · subst h11; right; decide
  by_cases h12 : c = '9'
  · subst h12; right; decide
  by_cases h13 : c = '6'
  · subst h13; right; decide
  exact Or.inl (leetStep_eq_self_of_ne c h1 h2 h3 h4 h5 h6 h7 h8 h9 h10 h11 h12 h13)

theorem deleet_char_idem (c : Char) :
    Char.toLower (leetStep (Char.toLower (leetStep c))) = Char.toLower (leetStep c) := by
  rcases leetStep_cases c with h | h
  · rw [h]
    by_cases hu : 65 ≤ c.toNat ∧ c.toNat ≤ 90
    · rw [toLower_of_upper c hu]
      have ht : (Char.ofNat (c.toNat + 32)).toNat = c.toNat + 32 :=
        char_toNat_ofNat _ (by omega)
      rw [leetStep_eq_self_of_ge _ (by omega), toLower_eq_self _ (by omega)]
    · rw [toLower_eq_self c hu, h]
      exact toLower_eq_self c hu
  · have h1 : Char.toLower (leetStep c) = leetStep c := toLower_eq_self _ (by omega)
    rw [h1, leetStep_eq_self_of_ge _ (by omega), h1]

theorem deleet_eq_map (s : List Char) :
    deleet s = s.map (fun c => Char.toLower (leetStep c)) := by
  rw [deleet, List.map_map]
  rfl

theorem normalize_alnum_idem (s : List Char) :
    normalize_alnum (normalize_alnum s) = normalize_alnum s := by
  have hmem : ∀ c ∈ normalize_alnum s, isLowerAlnum c = true := fun c hc =>
    (List.mem_filter.mp hc).2
  show ((normalize_alnum s).map Char.toLower).filter isLowerAlnum = normalize_alnum s
  rw [map_id_on (fun c hc => toLower_eq_self_of_isLowerAlnum c (hmem c hc))]
  exact List.filter_eq_self.mpr hmem

/-! ## Claim theorems -/

/-- C8: `normalize_alnum` is idempotent, and it identifies strings differing
only in case and punctuation, e.g. `normalize("AbC!2") == normalize("abc2")`. -/
theorem claim8_normalize_idempotent_case_insensitive :
    (∀ s : List Char, normalize_alnum (normalize_alnum s) = normalize_alnum s) ∧
    normalize_alnum ("AbC!2".toList) = normalize_alnum ("abc2".toList) :=
  ⟨normalize_alnum_idem, by decide⟩

/-- C10: `deleet` is idempotent: no character produced by the substitution
table, and no lowercased pass-through character, is itself a key of the
table. -/
theorem claim10_deleet_idempotent :
    ∀ s : List Char, deleet (deleet s) = deleet s := by
  intro s
  rw [deleet_eq_map (deleet s), deleet_eq_map s, List.map_map]
  exact List.map_congr_left (fun a _ => deleet_char_idem a)

/-- C3 counterexample: the claim says `deleet "!" = "l"`, but the source maps
`'!'` to `'i'` (only `'1'` maps to `'l'`). -/
theorem claim3_counterexample : deleet ("!".toList) ≠ "l".toList := by decide

/-- C3 amended: the table maps `'1'` to `'l'` and `'!'` to `'i'`:
`deleet "1" = "l"` and `deleet "!" = "i"`. -/
theorem claim3_leet_map_values :
    deleet ("1".toList) = "l".toList ∧ deleet ("!".toList) = "i".toList := by decide

theorem isAlnumAscii_iff (c : Char) :
    isAlnumAscii c = true ↔
      (65 ≤ c.toNat ∧ c.toNat ≤ 90) ∨ (97 ≤ c.toNat ∧ c.toNat ≤ 122) ∨
        (48 ≤ c.toNat ∧ c.toNat ≤ 57) := by
  simp [isAlnumAscii, Bool.or_eq_true, Bool.and_eq_true, decide_eq_true_eq, or_assoc]

theorem isLowerAlnum_iff (c : Char) :
    isLowerAlnum c = true ↔
      (97 ≤ c.toNat ∧ c.toNat ≤ 122) ∨ (48 ≤ c.toNat ∧ c.toNat ≤ 57) := by
  simp [isLowerAlnum, Bool.or_eq_true, Bool.and_eq_true, decide_eq_true_eq]

theorem not_alnum_char (c : Char) (h : isAlnumAscii c = false) :
    Char.toLower c = c ∧ isLowerAlnum c = false := by
  have h' : ¬((65 ≤ c.toNat ∧ c.toNat ≤ 90) ∨ (97 ≤ c.toNat ∧ c.toNat ≤ 122) ∨
      (48 ≤ c.toNat ∧ c.toNat ≤ 57)) :=
    fun hab => by rw [(isAlnumAscii_iff c).mpr hab] at h; cases h
  refine ⟨toLower_eq_self c (fun ha => h' (Or.inl ha)), ?_⟩
  rw [Bool.eq_false_iff]
  intro hl
  exact h' (Or.inr ((isLowerAlnum_iff c).mp hl))

theorem normalize_eq_nil_of_no_alnum (s : List Char)
    (h : ∀ c ∈ s, isAlnumAscii c = false) : normalize_alnum s = [] := by
  rw [normalize_alnum, List.filter_eq_nil_iff]
  intro a ha
  obtain ⟨c, hc, rfl⟩ := List.mem_map.mp ha
  obtain ⟨ht, hl⟩ := not_alnum_char c (h c hc)
  simp [ht, hl]

theorem mem_pyStrip {c : Char} {s : List Char} (h : c ∈ pyStrip s) : c ∈ s := by
  rw [pyStrip] at h
  rw [List.mem_reverse] at h
  have h1 := List.dropWhile_subset Char.isWhitespace h
  rw [List.mem_reverse] at h1
  exact List.dropWhile_subset Char.isWhitespace h1

theorem splitNonAlnum_all_nil :
    ∀ s : List Char, (∀ c ∈ s, isAlnumAscii c = false) →
      ∀ g ∈ splitNonAlnum s, g = [] := by
  intro s
  induction s with
  | nil =>
    intro _ g hg
    simp [splitNonAlnum] at hg
    exact hg
  | cons c t ih =>
    intro h g hg
    have hc : isAlnumAscii c = false := h c (List.mem_cons_self c t)
    cases t with
    | nil => simpa [splitNonAlnum, hc] using hg
    | cons d t' =>
      have hd : isAlnumAscii d = false := h d (List.mem_cons_of_mem c (List.mem_cons_self d t'))
      have e : splitNonAlnum (c :: d :: t') = splitNonAlnum (d :: t') := by
        simp [splitNonAlnum, hc, hd]
      rw [e] at hg
      exact ih (fun x hx => h x (List.mem_cons_of_mem c hx)) g hg

theorem tokenize_eq_nil_of_no_alnum (s : List Char)
    (h : ∀ c ∈ s, isAlnumAscii c = false) : tokenize_name s = [] := by
  rw [tokenize_name]
  split
  · rfl
  · have hf : (splitNonAlnum (pyStrip s)).filter (fun p => 3 ≤ p.length) = [] := by
      rw [List.filter_eq_nil_iff]
      intro g hg
      rw [splitNonAlnum_all_nil (pyStrip s) (fun x hx => h x (mem_pyStrip hx)) g hg]
      decide
    rw [hf, List.map_nil]

theorem detect_username_norm_nil (rec : Record) (h : normalize_alnum rec.username = []) :
    (detect_relations rec).exact_username = false ∧
    (detect_relations rec).contains_username = false ∧
    (detect_relations rec).startswith_username = false ∧
    (detect_relations rec).endswith_username = false ∧
    (detect_relations rec).reversed_username = false ∧
    (detect_relations rec).deleet_contains_username = false := by
  simp [detect_relations, h]

theorem detect_email_norm_nil (rec : Record) (h : normalize_alnum rec.email = []) :
    (detect_relations rec).exact_email = false := by
  simp [detect_relations, h]

theorem detect_localpart_norm_nil (rec : Record)
    (h : normalize_alnum (local_part rec.email) = []) :
    (detect_relations rec).contains_localpart = false := by
  simp [detect_relations, h]

/-- C2 counterexample: for username `"john.smith99"` the split on
`[^A-Za-z0-9]+` keeps `"smith99"` as one piece (digits are alphanumeric), so
`"smith"` is not in the token pool and `contains_token` is false for password
`"smith2024"`. -/
theorem claim2_counterexample :
    ("smith".toList ∉ tokenize_name ("john.smith99".toList)) ∧
    (detect_relations
      ⟨"john.smith99".toList, [], "smith2024".toList, []⟩).contains_token = false := by
  decide

/-- C2 amended: the token pool of `"john.smith99"` is exactly
`["john", "smith99"]` (nothing is short enough to be dropped by the ≥ 3 rule),
and for password `"smith2024"` the `contains_token` predicate is false with no
matched token. -/
theorem claim2_token_pool :
    tokenize_name ("john.smith99".toList) = ["john".toList, "smith99".toList] ∧
    (detect_relations
      ⟨"john.smith99".toList, [], "smith2024".toList, []⟩).contains_token = false ∧
    (detect_relations
      ⟨"john.smith99".toList, [], "smith2024".toList, []⟩).matched_tokens = [] := by
  decide

/-- C5: for the all-empty record every predicate is false and the primary
relation is `none`; in general an empty normalized username falsifies every
username predicate, an empty normalized email falsifies `exact_email`, and an
empty normalized local-part falsifies `contains_localpart`, with no
constraint on the password (all predicates are total functions — nothing can
raise). -/
theorem claim5_empty_identity_never_matches :
    ((detect_relations ⟨[], [], [], []⟩).exact_username = false ∧
     (detect_relations ⟨[], [], [], []⟩).exact_email = false ∧
     (detect_relations ⟨[], [], [], []⟩).contains_username = false ∧
     (detect_relations ⟨[], [], [], []⟩).startswith_username = false ∧
     (detect_relations ⟨[], [], [], []⟩).endswith_username = false ∧
     (detect_relations ⟨[], [], [], []⟩).contains_localpart = false ∧
     (detect_relations ⟨[], [], [], []⟩).contains_token = false ∧
     (detect_relations ⟨[], [], [], []⟩).reversed_username = false ∧
     (detect_relations ⟨[], [], [], []⟩).deleet_contains_username = false ∧
     (detect_relations ⟨[], [], [], []⟩).deleet_contains_token = false ∧
     primaryOf (detect_relations ⟨[], [], [], []⟩) = none) ∧
    (∀ rec : Record, normalize_alnum rec.username = [] →
      (detect_relations rec).exact_username = false ∧
      (detect_relations rec).contains_username = false ∧
      (detect_relations rec).startswith_username = false ∧
      (detect_relations rec).endswith_username = false ∧
      (detect_relations rec).reversed_username = false ∧
      (detect_relations rec).deleet_contains_username = false) ∧
    (∀ rec : Record, normalize_alnum rec.email = [] →
      (detect_relations rec).exact_email = false) ∧
    (∀ rec : Record, normalize_alnum (local_part rec.email) = [] →
      (detect_relations rec).contains_localpart = false) :=
  ⟨by decide, detect_username_norm_nil, detect_email_norm_nil, detect_localpart_norm_nil⟩

/-- C5 witness: a record with username `"?!"` (normalizing to the empty
string) and empty password matches nothing. -/
theorem claim5_witness :
    (detect_relations ⟨"?!".toList, [], [], []⟩).exact_username = false :=
  (claim5_empty_identity_never_matches.2.1 ⟨"?!".toList, [], [], []⟩ (by decide)).1

/-- C9: a username with no alphanumeric characters normalizes to the empty
string, contributes no tokens, and falsifies every username-referencing
predicate — it behaves exactly as if it were absent. -/
theorem claim9_non_alnum_username_inert :
    ∀ rec : Record, rec.username ≠ [] →
      (∀ c ∈ rec.username, isAlnumAscii c = false) →
      normalize_alnum rec.username = [] ∧
      tokenize_name rec.username = [] ∧
      (detect_relations rec).exact_username = false ∧
      (detect_relations rec).contains_username = false ∧
      (detect_relations rec).startswith_username = false ∧
      (detect_relations rec).endswith_username = false ∧
      (detect_relations rec).reversed_username = false ∧
      (detect_relations rec).deleet_contains_username = false := by
  intro rec _ h
  have hn := normalize_eq_nil_of_no_alnum rec.username h
  obtain ⟨h1, h2, h3, h4, h5, h6⟩ := detect_username_norm_nil rec hn
  exact ⟨hn, tokenize_eq_nil_of_no_alnum rec.username h, h1, h2, h3, h4, h5, h6⟩

/-- C9 witness: the record with username `"!!!"`. -/
theorem claim9_witness :
    normalize_alnum ("!!!".toList) = [] ∧ tokenize_name ("!!!".toList) = [] := by
  have h := claim9_non_alnum_username_inert ⟨"!!!".toList, [], [], []⟩
    (by decide) (by decide)
  exact ⟨h.1, h.2.1⟩

/-- C7: exactness implies substring — `exact_username` forces
`contains_username` — and when `exact_username` and `exact_email` are both
true the priority order still selects `exact_username` (`exact_email` never
preempts it). -/
theorem claim7_exactness_and_priority :
    ∀ rec : Record,
      ((detect_relations rec).exact_username = true →
        (detect_relations rec).contains_username = true) ∧
      ((detect_relations rec).exact_username = true →
        (detect_relations rec).exact_email = true →
        primaryOf (detect_relations rec) = some "exact_username") := by
  intro rec
  constructor
  · intro h
    simp only [detect_relations, Bool.and_eq_true] at h ⊢
    obtain ⟨h1, h2⟩ := h
    rw [beq_iff_eq] at h2
    exact ⟨h1, by simp [h2, List.infix_refl]⟩
  · intro hu _
    rw [primaryOf, priority_keys]
    exact List.find?_cons_of_pos _ (by simp [flags_get, hu])

/-- C7 witness: username `"carol"`, email `"ca.rol"`, password `"carol"`
satisfies both exact predicates; the primary is `exact_username`. -/
theorem claim7_witness :
    (detect_relations ⟨"carol".toList, "ca.rol".toList, "carol".toList, []⟩).contains_username
        = true ∧
    primaryOf (detect_relations ⟨"carol".toList, "ca.rol".toList, "carol".toList, []⟩)
        = some "exact_username" :=
  ⟨(claim7_exactness_and_priority ⟨"carol".toList, "ca.rol".toList, "carol".toList, []⟩).1
      (by decide),
   (claim7_exactness_and_priority ⟨"carol".toList, "ca.rol".toList, "carol".toList, []⟩).2
      (by decide) (by decide)⟩

/-- `List.find?` returns the first element satisfying the predicate: every
earlier position fails it. -/
theorem find?_first_index {α : Type} (p : α → Bool) :
    ∀ (l : List α) (a : α), l.find? p = some a →
      ∃ i, i < l.length ∧ l[i]? = some a ∧ p a = true ∧
        ∀ j, j < i → ∀ b, l[j]? = some b → p b = false := by
  intro l
  induction l with
  | nil => intro a h; cases h
  | cons x t ih =>
    intro a h
    by_cases hx : p x = true
    · rw [List.find?_cons_of_pos t hx] at h
      obtain rfl : x = a := by injection h
      exact ⟨0, by simp, by simp, hx, fun j hj => absurd hj (Nat.not_lt_zero j)⟩
    · rw [List.find?_cons_of_neg t hx] at h
      obtain ⟨i, hi, hget, hpa, hprev⟩ := ih a h
      refine ⟨i + 1, by simpa using hi, by simpa using hget, hpa, ?_⟩
      intro j hj b hb
      cases j with
      | zero =>
        rw [List.getElem?_cons_zero] at hb
        obtain rfl : x = b := by injection hb
        exact Bool.eq_false_iff.mpr hx
      | succ j' =>
        rw [List.getElem?_cons_succ] at hb
        exact hprev j' (Nat.lt_of_succ_lt_succ hj) b hb

/-- C1: the selected primary relation is the first true predicate in the
fixed priority order; it is `none` exactly when all eight prioritized
predicates are false; and `startswith_username` / `endswith_username` are
never selected.  As `primaryOf` is a function into `Option String`, each
record gets exactly one label among the 8 relations and `none`. -/
theorem claim1_priority_first_match :
    ∀ rec : Record,
      (∀ k, primaryOf (detect_relations rec) = some k →
        flags_get (detect_relations rec) k = true ∧ k ∈ priority_keys ∧
        ∃ i, i < priority_keys.length ∧ priority_keys[i]? = some k ∧
          ∀ j, j < i → ∀ k', priority_keys[j]? = some k' →
            flags_get (detect_relations rec) k' = false) ∧
      (primaryOf (detect_relations rec) = none ↔
        ∀ k ∈ priority_keys, flags_get (detect_relations rec) k = false) ∧
      primaryOf (detect_relations rec) ≠ some "startswith_username" ∧
      primaryOf (detect_relations rec) ≠ some "endswith_username" := by
  intro rec
  refine ⟨?_, ?_, ?_, ?_⟩
  · intro k hk
    rw [primaryOf] at hk
    obtain ⟨i, hi, hget, hp, hprev⟩ := find?_first_index _ priority_keys k hk
    exact ⟨hp, List.mem_of_find?_eq_some hk, i, hi, hget, hprev⟩
  · rw [primaryOf, List.find?_eq_none]
    simp only [Bool.not_eq_true]
  · intro h
    rw [primaryOf] at h
    exact absurd (List.mem_of_find?_eq_some h) (by decide)
  · intro h
    rw [primaryOf] at h
    exact absurd (List.mem_of_find?_eq_some h) (by decide)

/-- C1 witness: the `"bob"`/`"bob123"` record never gets
`startswith_username` as its primary relation. -/
theorem claim1_witness :
    primaryOf (detect_relations ⟨"bob".toList, [], "bob123".toList, []⟩)
      ≠ some "startswith_username" :=
  (claim1_priority_first_match ⟨"bob".toList, [], "bob123".toList, []⟩).2.2.1

theorem bump_apply_self (f : String → Nat) (k : String) : bump f k k = f k + 1 := by
  simp [bump]

theorem bump_apply_ne (f : String → Nat) (k x : String) (h : x ≠ k) :
    bump f k x = f x := by
  simp [bump, h]

theorem sum_map_bump (l : List String) (f : String → Nat) (k : String)
    (hk : k ∈ l) (hn : l.Nodup) :
    (l.map (bump f k)).sum = (l.map f).sum + 1 := by
  induction l with
  | nil => cases hk
  | cons a t ih =>
    rw [List.map_cons, List.map_cons, List.sum_cons, List.sum_cons]
    rcases List.mem_cons.mp hk with rfl | hkt
    · have hnot : k ∉ t := (List.nodup_cons.mp hn).1
      rw [bump_apply_self,
        List.map_congr_left (fun x hx => bump_apply_ne f k x (fun e => hnot (e ▸ hx)))]
      omega
    · have hak : a ≠ k := by
        rintro rfl
        exact (List.nodup_cons.mp hn).1 hkt
      rw [bump_apply_ne f k a hak, ih hkt (List.nodup_cons.mp hn).2]
      omega

theorem countStep_inv (counts : String → Nat) (r : Record) :
    (countStep counts r) "related" + (countStep counts r) "no_relation"
        = counts "related" + counts "no_relation" + 1 ∧
    (priority_keys.map (countStep counts r)).sum + counts "related"
        = (priority_keys.map counts).sum + (countStep counts r) "related" := by
  cases hp : primaryOf (detect_relations r) with
  | none =>
    have hcs : countStep counts r = bump counts "no_relation" := by
      rw [countStep, hp]
    rw [hcs]
    refine ⟨?_, ?_⟩
    · rw [bump_apply_ne counts "no_relation" "related" (by decide), bump_apply_self]
      omega
    · rw [List.map_congr_left
        (fun k hk => bump_apply_ne counts "no_relation" k (fun e => absurd (e ▸ hk) (by decide))),
        bump_apply_ne counts "no_relation" "related" (by decide)]
  | some k0 =>
    have hcs : countStep counts r = bump (bump counts k0) "related" := by
      rw [countStep, hp]
    rw [hcs]
    rw [primaryOf] at hp
    have hm : k0 ∈ priority_keys := List.mem_of_find?_eq_some hp
    have hr : k0 ≠ "related" := fun e => absurd (e ▸ hm) (by decide)
    have hnr : k0 ≠ "no_relation" := fun e => absurd (e ▸ hm) (by decide)
    refine ⟨?_, ?_⟩
    · rw [bump_apply_self, bump_apply_ne counts k0 "related" (Ne.symm hr),
        bump_apply_ne (bump counts k0) "related" "no_relation" (by decide),
        bump_apply_ne counts k0 "no_relation" (Ne.symm hnr)]
      omega
    · rw [List.map_congr_left
        (fun k hk => bump_apply_ne (bump counts k0) "related" k
          (fun e => absurd (e ▸ hk) (by decide))),
        sum_map_bump priority_keys counts k0 hm (by decide),
        bump_apply_self, bump_apply_ne counts k0 "related" (Ne.symm hr)]
      omega

theorem counts_fold_inv (records : List Record) :
    ∀ counts : String → Nat,
      (records.foldl countStep counts) "related"
          + (records.foldl countStep counts) "no_relation"
        = counts "related" + counts "no_relation" + records.length ∧
      (priority_keys.map (records.foldl countStep counts)).sum + counts "related"
        = (priority_keys.map counts).sum + (records.foldl countStep counts) "related" := by
  induction records with
  | nil => intro counts; simp
  | cons r t ih =>
    intro counts
    rw [List.foldl_cons, List.length_cons]
    obtain ⟨ih1, ih2⟩ := ih (countStep counts r)
    obtain ⟨hs1, hs2⟩ := countStep_inv counts r
    constructor
    · omega
    · omega

/-- C4: for every record set, `related + no_relation` equals the total
number of records, and the per-label counts over the 8 labeled relations sum
to `related`. -/
theorem claim4_summary_invariant :
    ∀ records : List Record,
      (analyze_relations records).related + (analyze_relations records).no_relation
        = (analyze_relations records).total ∧
      ((analyze_relations records).detail.map Prod.snd).sum
        = (analyze_relations records).related := by
  intro records
  obtain ⟨h1, h2⟩ := counts_fold_inv records (fun _ => 0)
  constructor
  · simpa using h1
  · simp only [analyze_relations, List.map_map]
    simpa using h2

/-- C6: the percentages are `count / total * 100`, and when the record set
is empty (`total = 0`) both percentages are 0 — the division is never
performed on a zero total. -/
theorem claim6_percentages :
    ∀ records : List Record,
      ((analyze_relations records).total = 0 →
        (analyze_relations records).related_pct = 0 ∧
        (analyze_relations records).no_relation_pct = 0) ∧
      ((analyze_relations records).total ≠ 0 →
        (analyze_relations records).related_pct =
          ((analyze_relations records).related : ℚ)
            / ((analyze_relations records).total : ℚ) * 100 ∧
        (analyze_relations records).no_relation_pct =
          ((analyze_relations records).no_relation : ℚ)
            / ((analyze_relations records).total : ℚ) * 100) := by
  intro records
  simp only [analyze_relations]
  constructor
  · intro h
    rw [if_pos h, if_pos h]
    exact ⟨rfl, rfl⟩
  · intro h
    rw [if_neg h, if_neg h]
    exact ⟨rfl, rfl⟩

/-- C6 witness: the empty record set yields percentage 0; a one-record set
yields the `count / total * 100` value. -/
theorem claim6_witness :
    (analyze_relations ([] : List Record)).related_pct = 0 ∧
    (analyze_relations [⟨"bob".toList, [], "bob123".toList, []⟩]).related_pct =
      ((analyze_relations [⟨"bob".toList, [], "bob123".toList, []⟩]).related : ℚ)
        / ((analyze_relations [⟨"bob".toList, [], "bob123".toList, []⟩]).total : ℚ) * 100 :=
  ⟨((claim6_percentages []).1 rfl).1,
   ((claim6_percentages [⟨"bob".toList, [], "bob123".toList, []⟩]).2 (by decide)).1⟩
